import Mathlib

/-!
Shallow embedding of `mdp/nodes/lcov.py`: the precision guard
`_check_roundoff`, the streaming `CovarianceMatrix` accumulator and the
time-lagged `DelayCovarianceMatrix` accumulator.

Modelling conventions:
* Machine floats become exact rationals (`ℚ`); `utils.scast` and
  `utils.refcast` are therefore value-preserving casts, but the typecode
  they carry is kept in the state because the precision guard branches
  on it.
* A batch (2-D numeric array of row width `D`) is a list of rows
  `Fin D → ℚ` together with its numeric typecode.
* Python methods mutating `self` become functions from the state
  structure to the (result, new state) pair; an exception raised
  mid-method yields `Except.error` paired with exactly the state the
  object held at the moment of the raise, so partial mutation before a
  raise is observable.
-/

/-- Numeric typecodes relevant to `lcov.py`: `'d'` (double), `'f'` (single),
and any other code (unchecked by the precision guard). -/
inductive Typecode where
  | d
  | f
  | other
  deriving DecidableEq, Repr

/-- The table `_limits` maps typecode d to 1e13 and typecode f to 1e5; it is
looked up with `has_key`, so an absent (`none`) or unknown typecode has no
limit. -/
def _limits : Option Typecode → Option ℚ
  | some .d => some ((10 : ℚ) ^ 13)
  | some .f => some ((10 : ℚ) ^ 5)
  | _ => none

/-- Python `int(t)`: truncation of a rational toward zero. -/
def pyInt (q : ℚ) : ℤ :=
  if 0 ≤ q then ⌊q⌋ else -⌊-q⌋

/-- Guard `_check_roundoff(t, type)`: `true` means the `mdp.MDPWarning` is raised,
i.e. the typecode has a limit and `int(t) >= _limits[type]`. It reads no
accumulator state and mutates nothing (it is a plain function of `t` and
`type`). -/
def _check_roundoff (t : ℚ) (type : Option Typecode) : Bool :=
  match _limits type with
  | some lim => decide ((pyInt t : ℚ) ≥ lim)
  | none => false

/-- The two exception classes raised by `lcov.py`. -/
inductive MDPErr where
  | MDPWarning
  | MDPException
  deriving DecidableEq, Repr

/-- A row of a sample batch: a `D`-vector of exact numbers. -/
abbrev Vec (D : ℕ) := Fin D → ℚ

/-- A `D × D` matrix of exact numbers. -/
abbrev Mat (D : ℕ) := Fin D → Fin D → ℚ

/-- A sample batch: an ordered list of `D`-rows plus the array's numeric
typecode (`x.typecode()` in the source). -/
structure Batch (D : ℕ) where
  rows : List (Vec D)
  tc : Typecode
  deriving DecidableEq

/-- Transpose `numx.transpose` of a square matrix. -/
def tr {D : ℕ} (a : Mat D) : Mat D := fun i j => a j i

/-- Matrix product `utils.mult`. -/
def mult {D : ℕ} (a b : Mat D) : Mat D := fun i k => ∑ j, a i j * b j k

/-- Outer product `numx.outerproduct(u, v)`. -/
def outerproduct {D : ℕ} (u v : Vec D) : Mat D := fun i j => u i * v j

/-- Column-wise sum `numx.sum(x, 0)` of a list of rows. -/
def colSum {D : ℕ} (l : List (Vec D)) : Vec D :=
  fun i => (l.map (fun r => r i)).sum

/-- Product `mult(tr(a), b)` for two equally long row lists `a`, `b` (the
`n × D` slices of a batch): entry `(i,j)` is `Σ_t a[t,i]·b[t,j]`. -/
def crossMult {D : ℕ} (a b : List (Vec D)) : Mat D :=
  fun i j => ((a.zip b).map (fun p => p.1 i * p.2 j)).sum

/-- Gram matrix `mult(tr(x), x)` of a whole batch. -/
def xtx {D : ℕ} (l : List (Vec D)) : Mat D := crossMult l l

/-- Cast `utils.refcast(x, typecode)`: value-preserving in exact arithmetic. -/
def refcast {D : ℕ} (x : Batch D) (_type : Option Typecode) : Batch D := x

/-- Cast `utils.scast(n, typecode)` applied to the integer counter:
value-preserving in exact arithmetic. -/
def scast (n : ℕ) (_type : Option Typecode) : ℚ := (n : ℚ)

/-- The mutable state of a `CovarianceMatrix` object: typecode (possibly
still unset), running sum of outer products `_cov_mtx`, running sum `_avg`
(both `None` outside an accumulation phase) and the observation count
`_tlen`. The input dimension `D` is a parameter of the embedding. -/
structure CovarianceMatrix (D : ℕ) where
  typecode : Option Typecode
  cov_mtx : Option (Mat D)
  avg : Option (Vec D)
  tlen : ℕ
  deriving DecidableEq

/-- Constructor `CovarianceMatrix.__init__(typecode)`. -/
def CovarianceMatrix.new {D : ℕ} (typecode : Option Typecode) :
    CovarianceMatrix D :=
  { typecode := typecode, cov_mtx := none, avg := none, tlen := 0 }

/-- Method `CovarianceMatrix._init_internals(x)`: infer the typecode from the batch
when unset and allocate zeroed running totals. -/
def CovarianceMatrix.init_internals {D : ℕ} (s : CovarianceMatrix D)
    (x : Batch D) : CovarianceMatrix D :=
  { s with
    typecode := some (s.typecode.getD x.tc)
    cov_mtx := some 0
    avg := some 0 }

/-- Method `CovarianceMatrix.update(x)`. -/
def CovarianceMatrix.update {D : ℕ} (s : CovarianceMatrix D) (x : Batch D) :
    CovarianceMatrix D :=
  let s1 := match s.cov_mtx with
    | none => s.init_internals x
    | some _ => s
  let x1 := refcast x s1.typecode
  { s1 with
    cov_mtx := some (s1.cov_mtx.getD 0 + xtx x1.rows)
    avg := some (s1.avg.getD 0 + colSum x1.rows)
    tlen := s1.tlen + x1.rows.length }

/-- The triple returned by `CovarianceMatrix.fix`. -/
structure CovResult (D : ℕ) where
  cov_mtx : Mat D
  avg : Vec D
  tlen : ℚ
  deriving DecidableEq

/-- Method `CovarianceMatrix.fix()`: either the `MDPWarning` from the precision
guard (raised before any state is touched, so the state is returned intact)
or the unbiased covariance, the mean and the typed count, with the running
state cleared. -/
def CovarianceMatrix.fix {D : ℕ} (s : CovarianceMatrix D) :
    Except MDPErr (CovResult D) × CovarianceMatrix D :=
  let type := s.typecode
  let tlen := scast s.tlen type
  if _check_roundoff tlen type then
    (Except.error MDPErr.MDPWarning, s)
  else
    let avg := s.avg.getD 0
    let cov_mtx := s.cov_mtx.getD 0
    let avg_mtx := fun i j => outerproduct avg avg i j / (tlen * (tlen - 1))
    let cov_mtx2 := fun i j => cov_mtx i j / (tlen - 1) - avg_mtx i j
    let avg2 := fun i => avg i / tlen
    (Except.ok { cov_mtx := cov_mtx2, avg := avg2, tlen := tlen },
     { s with cov_mtx := none, avg := none, tlen := 0 })

/-- The mutable state of a `DelayCovarianceMatrix` object: the fixed lag
`_dt`, plus typecode, running cross sum `_cov_mtx`, running leading sum
`_avg`, running lagged sum `_avg_dt`, and the pair count `_tlen`. -/
structure DelayCovarianceMatrix (D : ℕ) where
  dt : ℕ
  typecode : Option Typecode
  cov_mtx : Option (Mat D)
  avg : Option (Vec D)
  avg_dt : Option (Vec D)
  tlen : ℕ
  deriving DecidableEq

/-- Constructor `DelayCovarianceMatrix.__init__(dt, typecode)`. -/
def DelayCovarianceMatrix.new {D : ℕ} (dt : ℕ) (typecode : Option Typecode) :
    DelayCovarianceMatrix D :=
  { dt := dt, typecode := typecode, cov_mtx := none, avg := none,
    avg_dt := none, tlen := 0 }

/-- Method `DelayCovarianceMatrix._init_internals(x)`. -/
def DelayCovarianceMatrix.init_internals {D : ℕ} (s : DelayCovarianceMatrix D)
    (x : Batch D) : DelayCovarianceMatrix D :=
  { s with
    typecode := some (s.typecode.getD x.tc)
    cov_mtx := some 0
    avg := some 0
    avg_dt := some 0 }

/-- Method `DelayCovarianceMatrix.update(x)`. Mirrors the source's order of
effects: internals are initialised (on a first call) and the input cast
BEFORE the block-length check, and the `MDPException` raised by that check
leaves the object in the state it had at that moment. -/
def DelayCovarianceMatrix.update {D : ℕ} (s : DelayCovarianceMatrix D)
    (x : Batch D) : Except MDPErr Unit × DelayCovarianceMatrix D :=
  let s1 := match s.cov_mtx with
    | none => s.init_internals x
    | some _ => s
  let x1 := refcast x s1.typecode
  let dt := s1.dt
  let tlen := x1.rows.length
  if tlen < dt + 1 then
    (Except.error MDPErr.MDPException, s1)
  else
    let totalsum := colSum x1.rows
    (Except.ok (),
     { s1 with
       cov_mtx := some (s1.cov_mtx.getD 0 +
         crossMult (x1.rows.take (tlen - dt)) (x1.rows.drop dt))
       avg := some (s1.avg.getD 0 +
         (totalsum - colSum (x1.rows.drop (tlen - dt))))
       avg_dt := some (s1.avg_dt.getD 0 +
         (totalsum - colSum (x1.rows.take dt)))
       tlen := s1.tlen + (tlen - dt) })

/-- The quadruple returned by `DelayCovarianceMatrix.fix`. -/
structure DelayResult (D : ℕ) where
  cov_mtx : Mat D
  avg : Vec D
  avg_dt : Vec D
  tlen : ℚ
  deriving DecidableEq

/-- Method `DelayCovarianceMatrix.fix(A)`: either the precision guard's
`MDPWarning` (state intact) or the lagged covariance — transformed to
`A · C · tr(A)` when `A` is supplied — the two means and the typed count,
with the running state cleared. -/
def DelayCovarianceMatrix.fix {D : ℕ} (s : DelayCovarianceMatrix D)
    (A : Option (Mat D)) : Except MDPErr (DelayResult D) × DelayCovarianceMatrix D :=
  let type := s.typecode
  let tlen := scast s.tlen type
  if _check_roundoff tlen type then
    (Except.error MDPErr.MDPWarning, s)
  else
    let avg := s.avg.getD 0
    let avg_dt := s.avg_dt.getD 0
    let cov_mtx := s.cov_mtx.getD 0
    let avg_mtx := fun i j => outerproduct avg avg_dt i j / tlen
    let cov_mtx2 := fun i j => (cov_mtx i j - avg_mtx i j) / (tlen - 1)
    let cov_mtx3 := match A with
      | none => cov_mtx2
      | some a => mult a (mult cov_mtx2 (tr a))
    (Except.ok
      { cov_mtx := cov_mtx3
        avg := fun i => avg i / tlen
        avg_dt := fun i => avg_dt i / tlen
        tlen := tlen },
     { s with cov_mtx := none, avg := none, avg_dt := none, tlen := 0 })

/-- Feed a list of batches to a plain accumulator. -/
def runPlain {D : ℕ} (s : CovarianceMatrix D) (bs : List (Batch D)) :
    CovarianceMatrix D :=
  bs.foldl CovarianceMatrix.update s

/-- Feed a list of batches to a lagged accumulator, keeping the state each
`update` leaves behind (also after a raised `MDPException`). -/
def runDelay {D : ℕ} (s : DelayCovarianceMatrix D) (bs : List (Batch D)) :
    DelayCovarianceMatrix D :=
  bs.foldl (fun s b => (DelayCovarianceMatrix.update s b).2) s

deriving instance DecidableEq for Except

/-- Concrete 3×2 batch `[[1,2],[3,4],[5,6]]` from the spec's concrete
scenario, carried with the double typecode. -/
def b123 : Batch 2 := ⟨[![1, 2], ![3, 4], ![5, 6]], Typecode.d⟩

/-- A freshly constructed lagged accumulator with `dt = 3` (no typecode). -/
def freshDelay3 : DelayCovarianceMatrix 1 := DelayCovarianceMatrix.new 3 none

/-- A two-row batch, undersized for `dt = 3`. -/
def shortBatch : Batch 1 := ⟨[![1], ![2]], Typecode.d⟩

/-- A lagged accumulator with `dt = 3` whose internals are already
initialised (as after a successful first update). -/
def initedDelay3 : DelayCovarianceMatrix 1 :=
  ⟨3, some Typecode.d, some 0, some 0, some 0, 5⟩

/-- A small accumulated lagged state with `dt = 1` and two counted pairs. -/
def delayState1 : DelayCovarianceMatrix 1 :=
  ⟨1, some Typecode.d, some (fun _ _ => 5), some (fun _ => 3),
   some (fun _ => 4), 2⟩

/-- A concrete 1×1 transform matrix. -/
def matA : Mat 1 := fun _ _ => 2

/-- A plain accumulator state whose count has reached the double ceiling. -/
def hugePlain : CovarianceMatrix 1 := ⟨some Typecode.d, some 0, some 0, 10 ^ 13⟩

/-- A lagged accumulator state whose count has reached the single ceiling. -/
def hugeDelay : DelayCovarianceMatrix 1 :=
  ⟨1, some Typecode.f, some 0, some 0, some 0, 10 ^ 5⟩

/-- View a plain accumulator state as a lag-zero lagged state: same
typecode, cross sum and count, with both running means equal to the plain
running sum. A fresh plain state maps to a fresh `dt = 0` lagged state. -/
def toDelay {D : ℕ} (p : CovarianceMatrix D) : DelayCovarianceMatrix D :=
  ⟨0, p.typecode, p.cov_mtx, p.avg, p.avg, p.tlen⟩

/-!  Helper lemmas. -/

/-- Rearrangement identity behind the lag-zero degeneracy: the lagged
`(a - b/t)/(t-1)` equals the plain `a/(t-1) - b/(t*(t-1))`, for every
rational `t` (the division-by-zero conventions agree as well). -/
theorem div_sub_div_outer (a b t : ℚ) :
    (a - b / t) / (t - 1) = a / (t - 1) - b / (t * (t - 1)) := by
  rcases eq_or_ne t 0 with h0 | h0
  · subst h0
    norm_num
  rcases eq_or_ne t 1 with h1 | h1
  · subst h1
    norm_num
  · have h1' : t - 1 ≠ 0 := sub_ne_zero.mpr h1
    field_simp
    ring

theorem colSum_nil {D : ℕ} : colSum ([] : List (Vec D)) = 0 := by
  funext i
  simp [colSum]

theorem colSum_append {D : ℕ} (l1 l2 : List (Vec D)) :
    colSum (l1 ++ l2) = colSum l1 + colSum l2 := by
  funext i
  simp [colSum]

theorem xtx_append {D : ℕ} (l1 l2 : List (Vec D)) :
    xtx (l1 ++ l2) = xtx l1 + xtx l2 := by
  funext i j
  have hz : (l1 ++ l2).zip (l1 ++ l2) = l1.zip l1 ++ l2.zip l2 :=
    List.zip_append rfl
  simp [xtx, crossMult, hz]

/-- Claim C3 — the precision guard raises exactly when the typecode is
double-like and `int(t) ≥ 1e13` or single-like and `int(t) ≥ 1e5`; for an
unknown or unset typecode it never raises. (As a plain function of its two
arguments the guard mutates no accumulator state.) -/
theorem claim3_check_roundoff_iff (t : ℚ) (type : Option Typecode) :
    _check_roundoff t type = true ↔
      ((type = some Typecode.d ∧ (10 : ℚ) ^ 13 ≤ (pyInt t : ℚ)) ∨
       (type = some Typecode.f ∧ (10 : ℚ) ^ 5 ≤ (pyInt t : ℚ))) := by
  rcases type with _ | tc
  · simp [_check_roundoff, _limits]
  · cases tc <;> simp [_check_roundoff, _limits, ge_iff_le]

/-- Claim C7 — when the precision guard's ceiling is reached, `fix` (plain
as well as lagged, the latter for any transform argument) raises the
`MDPWarning` and hands back the running state entirely unchanged. -/
theorem claim7_fix_guard_leaves_state {D : ℕ} (s : CovarianceMatrix D)
    (sd : DelayCovarianceMatrix D) (A : Option (Mat D)) :
    (_check_roundoff (scast s.tlen s.typecode) s.typecode = true →
      s.fix = (Except.error MDPErr.MDPWarning, s)) ∧
    (_check_roundoff (scast sd.tlen sd.typecode) sd.typecode = true →
      sd.fix A = (Except.error MDPErr.MDPWarning, sd)) := by
  constructor
  · intro h
    simp [CovarianceMatrix.fix, h]
  · intro h
    simp [DelayCovarianceMatrix.fix, h]

theorem claim7_witness :
    hugePlain.fix = (Except.error MDPErr.MDPWarning, hugePlain) ∧
    hugeDelay.fix none = (Except.error MDPErr.MDPWarning, hugeDelay) :=
  ⟨(claim7_fix_guard_leaves_state hugePlain hugeDelay none).1 (by decide),
   (claim7_fix_guard_leaves_state hugePlain hugeDelay none).2 (by decide)⟩

/-- Claim C1 — finalising an accumulated lagged state with sums
`sc, sl, sg` and count `c ≥ 2` (when the precision guard stays quiet)
returns covariance `(sc - outer(sl, sg)/c) / (c - 1)`, `mean_lead = sl/c`
and `mean_lag = sg/c`; with a transform `A` the covariance becomes
`A · C · tr(A)` instead. -/
theorem claim1_delay_fix_formula {D : ℕ} (s : DelayCovarianceMatrix D)
    (sc : Mat D) (sl sg : Vec D) (A : Mat D)
    (hc : s.cov_mtx = some sc) (hl : s.avg = some sl) (hg : s.avg_dt = some sg)
    (h2 : 2 ≤ s.tlen)
    (hguard : _check_roundoff (scast s.tlen s.typecode) s.typecode = false) :
    (s.fix none).1 = Except.ok
      { cov_mtx := fun i j =>
          (sc i j - outerproduct sl sg i j / (s.tlen : ℚ)) / ((s.tlen : ℚ) - 1)
        avg := fun i => sl i / (s.tlen : ℚ)
        avg_dt := fun i => sg i / (s.tlen : ℚ)
        tlen := (s.tlen : ℚ) } ∧
    (s.fix (some A)).1 = Except.ok
      { cov_mtx := mult A (mult (fun i j =>
          (sc i j - outerproduct sl sg i j / (s.tlen : ℚ)) / ((s.tlen : ℚ) - 1))
          (tr A))
        avg := fun i => sl i / (s.tlen : ℚ)
        avg_dt := fun i => sg i / (s.tlen : ℚ)
        tlen := (s.tlen : ℚ) } := by
  have hg' : _check_roundoff ((s.tlen : ℚ)) s.typecode = false := by
    simpa [scast] using hguard
  constructor <;>
    simp [DelayCovarianceMatrix.fix, hg', hc, hl, hg, scast]

theorem claim1_witness :
    (delayState1.fix none).1 = Except.ok
      { cov_mtx := fun i j =>
          ((fun _ _ => (5 : ℚ)) i j -
            outerproduct (fun _ => 3) (fun _ => 4) i j / ((2 : ℕ) : ℚ)) /
            (((2 : ℕ) : ℚ) - 1)
        avg := fun i => (fun _ => (3 : ℚ)) i / ((2 : ℕ) : ℚ)
        avg_dt := fun i => (fun _ => (4 : ℚ)) i / ((2 : ℕ) : ℚ)
        tlen := ((2 : ℕ) : ℚ) } ∧
    (delayState1.fix (some matA)).1 = Except.ok
      { cov_mtx := mult matA (mult (fun i j =>
          ((fun _ _ => (5 : ℚ)) i j -
            outerproduct (fun _ => 3) (fun _ => 4) i j / ((2 : ℕ) : ℚ)) /
            (((2 : ℕ) : ℚ) - 1)) (tr matA))
        avg := fun i => (fun _ => (3 : ℚ)) i / ((2 : ℕ) : ℚ)
        avg_dt := fun i => (fun _ => (4 : ℚ)) i / ((2 : ℕ) : ℚ)
        tlen := ((2 : ℕ) : ℚ) } :=
  claim1_delay_fix_formula delayState1 (fun _ _ => 5) (fun _ => 3)
    (fun _ => 4) matA rfl rfl rfl (by decide) (by decide)

/-- Claim C10 — supplying a transform matrix `A` to the lagged `fix`
changes only the returned covariance: the resulting accumulator state and
the returned `mean_lead`, `mean_lag` and observation count are those of a
transform-free `fix` of the same state. -/
theorem claim10_transform_frame {D : ℕ} (s : DelayCovarianceMatrix D)
    (A : Mat D) (h2 : 2 ≤ s.tlen) :
    (s.fix (some A)).2 = (s.fix none).2 ∧
    Except.map (fun r => (r.avg, r.avg_dt, r.tlen)) (s.fix (some A)).1 =
      Except.map (fun r => (r.avg, r.avg_dt, r.tlen)) (s.fix none).1 := by
  by_cases hguard : _check_roundoff (scast s.tlen s.typecode) s.typecode <;>
    simp [DelayCovarianceMatrix.fix, hguard, Except.map]

theorem claim10_witness :
    (delayState1.fix (some matA)).2 = (delayState1.fix none).2 ∧
    Except.map (fun r => (r.avg, r.avg_dt, r.tlen)) (delayState1.fix (some matA)).1 =
      Except.map (fun r => (r.avg, r.avg_dt, r.tlen)) (delayState1.fix none).1 :=
  claim10_transform_frame delayState1 matA (by decide)

/-- Claim C4, counterexample — on a FRESH lagged accumulator (`dt = 3`,
no typecode) an undersized two-row batch does raise the data-validity
error, but the state after the call differs from the prior state:
`_init_internals` ran before the block-length check and set the typecode,
dimension and zeroed running sums. -/
theorem claim4_counterexample :
    (freshDelay3.update shortBatch).1 = Except.error MDPErr.MDPException ∧
    (freshDelay3.update shortBatch).2 ≠ freshDelay3 := by
  constructor
  · rfl
  · decide

/-- Claim C4, amended — for a lagged accumulator whose internals are
already initialised (any state reached after a first update), an
undersized batch raises the data-validity error and leaves every field of
the state unchanged; on a never-updated accumulator the error is still
raised, but typecode, dimension and zeroed running sums are initialised
first (the counts and sums still hold no data). -/
theorem claim4_undersized_batch_rejection {D : ℕ}
    (s : DelayCovarianceMatrix D) (x : Batch D)
    (hinit : s.cov_mtx.isSome = true) (hlen : x.rows.length < s.dt + 1) :
    s.update x = (Except.error MDPErr.MDPException, s) := by
  obtain ⟨m, hm⟩ := Option.isSome_iff_exists.mp hinit
  simp [DelayCovarianceMatrix.update, hm, refcast, hlen]

theorem claim4_witness :
    initedDelay3.update shortBatch = (Except.error MDPErr.MDPException, initedDelay3) :=
  claim4_undersized_batch_rejection initedDelay3 shortBatch (by decide) (by decide)

/-- Two consecutive updates with row lists `r1`, `r2` (same typecode)
leave the plain accumulator in exactly the state one update with the
concatenated rows produces. -/
theorem update_update_eq_update_append {D : ℕ} (s : CovarianceMatrix D)
    (r1 r2 : List (Vec D)) (tc : Typecode) :
    (s.update ⟨r1, tc⟩).update ⟨r2, tc⟩ = s.update ⟨r1 ++ r2, tc⟩ := by
  cases hc : s.cov_mtx <;>
    simp [CovarianceMatrix.update, CovarianceMatrix.init_internals, refcast,
      hc, xtx_append, colSum_append, add_assoc]

/-- Claim C5 — for the plain accumulator, `update(B1); update(B2); fix`
returns exactly what `update(B1 ++ B2); fix` returns (result and final
state alike), for any starting state and any two row lists of the shared
width `D` and typecode. -/
theorem claim5_merge_property {D : ℕ} (s : CovarianceMatrix D)
    (r1 r2 : List (Vec D)) (tc : Typecode) :
    ((s.update ⟨r1, tc⟩).update ⟨r2, tc⟩).fix = (s.update ⟨r1 ++ r2, tc⟩).fix := by
  rw [update_update_eq_update_append]

/-- Concrete evaluation — one plain update with `b123` then `fix` yields
covariance `[[4,4],[4,4]]`, mean `[3,4]`, count `3`, and the cleared
state retaining the inferred typecode. -/
theorem eval_plain_b123 :
    ((CovarianceMatrix.new none : CovarianceMatrix 2).update b123).fix =
      (Except.ok ⟨![![4, 4], ![4, 4]], ![3, 4], 3⟩,
       ⟨some Typecode.d, none, none, 0⟩) := by
  have hup : (CovarianceMatrix.new none : CovarianceMatrix 2).update b123 =
      ⟨some Typecode.d, some (xtx b123.rows), some (colSum b123.rows), 3⟩ := by
    simp [CovarianceMatrix.update, CovarianceMatrix.new,
      CovarianceMatrix.init_internals, refcast, b123]
  rw [hup]
  have hguard : _check_roundoff (scast 3 (some Typecode.d))
      (some Typecode.d) = false := by decide
  simp only [CovarianceMatrix.fix, scast] at *
  rw [hguard]
  simp only [Bool.false_eq_true, if_false, Option.getD_some, Prod.mk.injEq,
    Except.ok.injEq, CovResult.mk.injEq]
  refine ⟨⟨?_, ?_, by norm_num⟩, trivial⟩
  · funext i j
    fin_cases i <;> fin_cases j <;>
      simp [xtx, crossMult, colSum, outerproduct, b123] <;> norm_num
  · funext i
    fin_cases i <;> simp [colSum, b123] <;> norm_num

/-- Concrete evaluation — one lagged update (`dt = 0`) with `b123` then
`fix` with no transform yields the same covariance and count as the plain
accumulator and equal leading and lagged means. -/
theorem eval_delay0_b123 :
    (((DelayCovarianceMatrix.new 0 none : DelayCovarianceMatrix 2).update b123).2.fix none) =
      (Except.ok ⟨![![4, 4], ![4, 4]], ![3, 4], ![3, 4], 3⟩,
       ⟨0, some Typecode.d, none, none, none, 0⟩) := by
  have hup : ((DelayCovarianceMatrix.new 0 none : DelayCovarianceMatrix 2).update b123).2 =
      ⟨0, some Typecode.d, some (xtx b123.rows), some (colSum b123.rows),
       some (colSum b123.rows), 3⟩ := by
    simp [DelayCovarianceMatrix.update, DelayCovarianceMatrix.new,
      DelayCovarianceMatrix.init_internals, refcast, b123, colSum_nil, xtx]
  rw [hup]
  have hguard : _check_roundoff (scast 3 (some Typecode.d))
      (some Typecode.d) = false := by decide
  simp only [DelayCovarianceMatrix.fix, scast] at *
  rw [hguard]
  simp only [Bool.false_eq_true, if_false, Option.getD_some, Prod.mk.injEq,
    Except.ok.injEq, DelayResult.mk.injEq]
  refine ⟨⟨?_, ?_, ?_, by norm_num⟩, trivial⟩
  · funext i j
    fin_cases i <;> fin_cases j <;>
      simp [xtx, crossMult, colSum, outerproduct, b123] <;> norm_num
  · funext i
    fin_cases i <;> simp [colSum, b123] <;> norm_num
  · funext i
    fin_cases i <;> simp [colSum, b123] <;> norm_num

/-- Claim C2 — the plain accumulator fed the single batch
`[[1,2],[3,4],[5,6]]` and finalised returns count `3`, mean `[3,4]` and
the unbiased sample covariance `[[4,4],[4,4]]`. -/
theorem claim2_concrete_scenario :
    (((CovarianceMatrix.new none : CovarianceMatrix 2).update b123).fix).1 =
      Except.ok ⟨![![4, 4], ![4, 4]], ![3, 4], 3⟩ := by
  rw [eval_plain_b123]

/-- One lag-zero update tracks the matching plain update exactly (the
batch must be non-empty, or the lagged accumulator raises instead). -/
theorem delay0_update_toDelay {D : ℕ} (p : CovarianceMatrix D) (b : Batch D)
    (hb : b.rows ≠ []) :
    ((toDelay p).update b).2 = toDelay (p.update b) := by
  have hn : ¬ (b.rows.length < 0 + 1) := by
    simpa [Nat.lt_succ_iff, Nat.le_zero, List.length_eq_zero] using hb
  cases hp : p.cov_mtx <;>
    simp [DelayCovarianceMatrix.update, CovarianceMatrix.update, toDelay,
      DelayCovarianceMatrix.init_internals, CovarianceMatrix.init_internals,
      refcast, hp, hn, xtx, List.take_length, List.drop_length, colSum_nil]

/-- A whole run of non-empty batches through a lag-zero accumulator tracks
the plain run. -/
theorem delay0_run_toDelay {D : ℕ} (bs : List (Batch D))
    (h : ∀ b ∈ bs, b.rows ≠ []) (p : CovarianceMatrix D) :
    runDelay (toDelay p) bs = toDelay (runPlain p bs) := by
  induction bs generalizing p with
  | nil => rfl
  | cons b rest ih =>
    have hb : b.rows ≠ [] := h b (List.mem_cons_self b rest)
    have hrest : ∀ b' ∈ rest, b'.rows ≠ [] := fun b' hb' =>
      h b' (List.mem_cons_of_mem b hb')
    simp only [runDelay, runPlain, List.foldl_cons] at *
    rw [delay0_update_toDelay p b hb]
    exact ih hrest (p.update b)

/-- Finalising a lag-zero view of a plain state returns the plain result
with the mean duplicated into both mean slots. -/
theorem delay0_fix_toDelay {D : ℕ} (p : CovarianceMatrix D) :
    ((toDelay p).fix none).1 =
      Except.map
        (fun r => (⟨r.cov_mtx, r.avg, r.avg, r.tlen⟩ : DelayResult D))
        p.fix.1 := by
  by_cases hguard : _check_roundoff (scast p.tlen p.typecode) p.typecode
  · simp [DelayCovarianceMatrix.fix, CovarianceMatrix.fix, toDelay, hguard,
      Except.map]
  · simp only [Bool.not_eq_true] at hguard
    simp [DelayCovarianceMatrix.fix, CovarianceMatrix.fix, toDelay, hguard,
      Except.map, DelayResult.mk.injEq]
    funext i j
    exact div_sub_div_outer (p.cov_mtx.getD 0 i j)
      (outerproduct (p.avg.getD 0) (p.avg.getD 0) i j)
      (scast p.tlen p.typecode)

/-- Claim C6 — on any sequence of non-empty batches, a lagged accumulator
constructed with `dt = 0` finalises to the plain accumulator's covariance
and count, with `mean_lead = mean_lag` equal to the plain mean. -/
theorem claim6_lag_zero_degeneracy {D : ℕ} (t0 : Option Typecode)
    (bs : List (Batch D)) (h : ∀ b ∈ bs, b.rows ≠ []) :
    ((runDelay (DelayCovarianceMatrix.new 0 t0) bs).fix none).1 =
      Except.map
        (fun r => (⟨r.cov_mtx, r.avg, r.avg, r.tlen⟩ : DelayResult D))
        ((runPlain (CovarianceMatrix.new t0) bs).fix).1 := by
  have hfresh : (DelayCovarianceMatrix.new 0 t0 : DelayCovarianceMatrix D) =
      toDelay (CovarianceMatrix.new t0) := rfl
  rw [hfresh, delay0_run_toDelay bs h, delay0_fix_toDelay]

theorem claim6_witness :
    ((runDelay (DelayCovarianceMatrix.new 0 none) [b123]).fix none).1 =
      Except.map
        (fun r => (⟨r.cov_mtx, r.avg, r.avg, r.tlen⟩ : DelayResult 2))
        ((runPlain (CovarianceMatrix.new none) [b123]).fix).1 :=
  claim6_lag_zero_degeneracy none [b123] (by simp [b123])

/-- One plain update adds exactly the batch's row count to `_tlen`. -/
theorem update_tlen {D : ℕ} (s : CovarianceMatrix D) (b : Batch D) :
    (s.update b).tlen = s.tlen + b.rows.length := by
  cases hc : s.cov_mtx <;>
    simp [CovarianceMatrix.update, CovarianceMatrix.init_internals, refcast, hc]

/-- A plain run adds the total number of rows across all batches. -/
theorem runPlain_tlen {D : ℕ} (bs : List (Batch D)) (s : CovarianceMatrix D) :
    (runPlain s bs).tlen = s.tlen + (bs.map (fun b => b.rows.length)).sum := by
  induction bs generalizing s with
  | nil => simp [runPlain]
  | cons b rest ih =>
    have h1 : runPlain s (b :: rest) = runPlain (s.update b) rest := rfl
    rw [h1, ih (s.update b), update_tlen]
    simp [add_assoc]

/-- Claim C9 — whenever a plain accumulator built fresh, fed any batches
totalling at least 2 rows, finalises successfully, the third component of
the returned triple is the integer total number of rows accumulated since
the last reset (cast into the element type, which is exact here). -/
theorem claim9_count_returned {D : ℕ} (t0 : Option Typecode)
    (bs : List (Batch D)) (r : CovResult D)
    (h2 : 2 ≤ (bs.map (fun b => b.rows.length)).sum)
    (hfix : ((runPlain (CovarianceMatrix.new t0) bs).fix).1 = Except.ok r) :
    r.tlen = (((bs.map (fun b => b.rows.length)).sum : ℕ) : ℚ) := by
  by_cases hguard : _check_roundoff
      (scast (runPlain (CovarianceMatrix.new t0) bs).tlen
        (runPlain (CovarianceMatrix.new t0) bs).typecode)
      (runPlain (CovarianceMatrix.new t0) bs).typecode
  · simp [CovarianceMatrix.fix, hguard] at hfix
  · simp only [Bool.not_eq_true] at hguard
    simp [CovarianceMatrix.fix, hguard] at hfix
    have htlen : (runPlain (CovarianceMatrix.new t0) bs).tlen =
        (bs.map (fun b => b.rows.length)).sum := by
      rw [runPlain_tlen]
      simp [CovarianceMatrix.new]
    rw [← hfix]
    show scast (runPlain (CovarianceMatrix.new t0) bs).tlen
      (runPlain (CovarianceMatrix.new t0) bs).typecode = _
    simp only [scast]
    rw [htlen]

theorem claim9_witness :
    (⟨![![4, 4], ![4, 4]], ![3, 4], 3⟩ : CovResult 2).tlen =
      ((([b123].map (fun b => b.rows.length)).sum : ℕ) : ℚ) :=
  claim9_count_returned none [b123] ⟨![![4, 4], ![4, 4]], ![3, 4], 3⟩
    (by decide)
    (by
      have h1 : runPlain (CovarianceMatrix.new none) [b123] =
          (CovarianceMatrix.new none : CovarianceMatrix 2).update b123 := rfl
      rw [h1, eval_plain_b123])

/-- After any plain update the running matrix is allocated. -/
theorem update_cov_isSome {D : ℕ} (s : CovarianceMatrix D) (b : Batch D) :
    (s.update b).cov_mtx.isSome = true := by
  cases hc : s.cov_mtx <;>
    simp [CovarianceMatrix.update, CovarianceMatrix.init_internals, refcast, hc]

/-- Once the internals are allocated, plain updates keep the typecode. -/
theorem update_typecode_of_isSome {D : ℕ} (s : CovarianceMatrix D)
    (b : Batch D) (h : s.cov_mtx.isSome = true) :
    (s.update b).typecode = s.typecode := by
  obtain ⟨m, hm⟩ := Option.isSome_iff_exists.mp h
  simp [CovarianceMatrix.update, hm, refcast]

/-- Once the internals are allocated, a plain run keeps the typecode. -/
theorem runPlain_typecode_of_isSome {D : ℕ} (bs : List (Batch D))
    (s : CovarianceMatrix D) (h : s.cov_mtx.isSome = true) :
    (runPlain s bs).typecode = s.typecode := by
  induction bs generalizing s with
  | nil => rfl
  | cons b rest ih =>
    have h1 : runPlain s (b :: rest) = runPlain (s.update b) rest := rfl
    rw [h1, ih (s.update b) (update_cov_isSome s b),
      update_typecode_of_isSome s b h]

/-- Rerunning the same batches from the state `fix` leaves behind (cleared
totals, retained typecode) reproduces the run from a fresh accumulator. -/
theorem runPlain_reset {D : ℕ} (t0 : Option Typecode) (bs : List (Batch D)) :
    runPlain ⟨(runPlain (CovarianceMatrix.new t0) bs).typecode, none, none, 0⟩ bs =
      runPlain (CovarianceMatrix.new t0) bs := by
  cases bs with
  | nil => rfl
  | cons b rest =>
    have hcons : ∀ s : CovarianceMatrix D,
        runPlain s (b :: rest) = runPlain (s.update b) rest := fun _ => rfl
    have htc : (runPlain (CovarianceMatrix.new t0) (b :: rest)).typecode =
        some (t0.getD b.tc) := by
      rw [hcons, runPlain_typecode_of_isSome rest _ (update_cov_isSome _ b)]
      simp [CovarianceMatrix.update, CovarianceMatrix.new,
        CovarianceMatrix.init_internals, refcast]
    rw [htc, hcons, hcons]
    congr 1

/-- After any lagged update (also a failed one) the running matrix is
allocated. -/
theorem updateD_cov_isSome {D : ℕ} (s : DelayCovarianceMatrix D)
    (b : Batch D) : ((s.update b).2).cov_mtx.isSome = true := by
  cases hc : s.cov_mtx <;>
    simp only [DelayCovarianceMatrix.update,
      DelayCovarianceMatrix.init_internals, refcast, hc] <;>
    split <;> simp [hc]

/-- Once the internals are allocated, lagged updates keep the typecode. -/
theorem updateD_typecode_of_isSome {D : ℕ} (s : DelayCovarianceMatrix D)
    (b : Batch D) (h : s.cov_mtx.isSome = true) :
    ((s.update b).2).typecode = s.typecode := by
  obtain ⟨m, hm⟩ := Option.isSome_iff_exists.mp h
  simp only [DelayCovarianceMatrix.update,
    DelayCovarianceMatrix.init_internals, refcast, hm] <;>
  split <;> simp

/-- A lagged update never changes the lag. -/
theorem updateD_dt {D : ℕ} (s : DelayCovarianceMatrix D) (b : Batch D) :
    ((s.update b).2).dt = s.dt := by
  cases hc : s.cov_mtx <;>
    simp only [DelayCovarianceMatrix.update,
      DelayCovarianceMatrix.init_internals, refcast, hc] <;>
    split <;> simp

/-- Once the internals are allocated, a lagged run keeps the typecode. -/
theorem runDelay_typecode_of_isSome {D : ℕ} (bs : List (Batch D))
    (s : DelayCovarianceMatrix D) (h : s.cov_mtx.isSome = true) :
    (runDelay s bs).typecode = s.typecode := by
  induction bs generalizing s with
  | nil => rfl
  | cons b rest ih =>
    have h1 : runDelay s (b :: rest) = runDelay ((s.update b).2) rest := rfl
    rw [h1, ih ((s.update b).2) (updateD_cov_isSome s b),
      updateD_typecode_of_isSome s b h]

/-- A lagged run never changes the lag. -/
theorem runDelay_dt {D : ℕ} (bs : List (Batch D))
    (s : DelayCovarianceMatrix D) : (runDelay s bs).dt = s.dt := by
  induction bs generalizing s with
  | nil => rfl
  | cons b rest ih =>
    have h1 : runDelay s (b :: rest) = runDelay ((s.update b).2) rest := rfl
    rw [h1, ih ((s.update b).2), updateD_dt s b]

/-- Rerunning the same batches from the state the lagged `fix` leaves
behind reproduces the run from a fresh lagged accumulator. -/
theorem runDelay_reset {D : ℕ} (dt : ℕ) (t0 : Option Typecode)
    (bs : List (Batch D)) :
    runDelay ⟨dt, (runDelay (DelayCovarianceMatrix.new dt t0) bs).typecode,
      none, none, none, 0⟩ bs =
      runDelay (DelayCovarianceMatrix.new dt t0) bs := by
  cases bs with
  | nil => rfl
  | cons b rest =>
    have hcons : ∀ s : DelayCovarianceMatrix D,
        runDelay s (b :: rest) = runDelay ((s.update b).2) rest := fun _ => rfl
    have htc : (runDelay (DelayCovarianceMatrix.new dt t0) (b :: rest)).typecode =
        some (t0.getD b.tc) := by
      rw [hcons, runDelay_typecode_of_isSome rest _ (updateD_cov_isSome _ b)]
      simp only [DelayCovarianceMatrix.update, DelayCovarianceMatrix.new,
        DelayCovarianceMatrix.init_internals, refcast]
      split <;> simp
    rw [htc, hcons, hcons]
    congr 1

/-- Claim C8 — a successful `fix` clears the running state (matrices to
`None`, count to 0), and feeding the same batches again and fixing again
reproduces the first result exactly, for the plain and for the lagged
accumulator (the latter for any lag). -/
theorem claim8_reset_idempotence {D : ℕ} (t0 : Option Typecode) (dt : ℕ)
    (bs : List (Batch D)) (r1 : CovResult D) (s1 : CovarianceMatrix D)
    (r2 : DelayResult D) (s2 : DelayCovarianceMatrix D) :
    ((runPlain (CovarianceMatrix.new t0) bs).fix = (Except.ok r1, s1) →
      s1.cov_mtx = none ∧ s1.avg = none ∧ s1.tlen = 0 ∧
      (runPlain s1 bs).fix = (Except.ok r1, s1)) ∧
    ((runDelay (DelayCovarianceMatrix.new dt t0) bs).fix none = (Except.ok r2, s2) →
      s2.cov_mtx = none ∧ s2.avg = none ∧ s2.avg_dt = none ∧ s2.tlen = 0 ∧
      (runDelay s2 bs).fix none = (Except.ok r2, s2)) := by
  constructor
  · intro hfix
    by_cases hguard : _check_roundoff
        (scast (runPlain (CovarianceMatrix.new t0) bs).tlen
          (runPlain (CovarianceMatrix.new t0) bs).typecode)
        (runPlain (CovarianceMatrix.new t0) bs).typecode
    · simp [CovarianceMatrix.fix, hguard] at hfix
    · simp only [Bool.not_eq_true] at hguard
      simp only [CovarianceMatrix.fix, hguard, Bool.false_eq_true, if_false,
        Prod.mk.injEq, Except.ok.injEq] at hfix
      obtain ⟨hr, hs⟩ := hfix
      subst hs
      refine ⟨rfl, rfl, rfl, ?_⟩
      rw [runPlain_reset t0 bs]
      simp only [CovarianceMatrix.fix, hguard, Bool.false_eq_true, if_false,
        Prod.mk.injEq, Except.ok.injEq]
      exact ⟨hr, trivial⟩
  · intro hfix
    by_cases hguard : _check_roundoff
        (scast (runDelay (DelayCovarianceMatrix.new dt t0) bs).tlen
          (runDelay (DelayCovarianceMatrix.new dt t0) bs).typecode)
        (runDelay (DelayCovarianceMatrix.new dt t0) bs).typecode
    · simp [DelayCovarianceMatrix.fix, hguard] at hfix
    · simp only [Bool.not_eq_true] at hguard
      simp only [DelayCovarianceMatrix.fix, hguard, Bool.false_eq_true,
        if_false, Prod.mk.injEq, Except.ok.injEq] at hfix
      obtain ⟨hr, hs⟩ := hfix
      subst hs
      refine ⟨rfl, rfl, rfl, rfl, ?_⟩
      have hdt : (runDelay (DelayCovarianceMatrix.new dt t0) bs).dt = dt :=
        runDelay_dt bs (DelayCovarianceMatrix.new dt t0)
      rw [hdt]
      rw [runDelay_reset dt t0 bs]
      simp only [DelayCovarianceMatrix.fix, hguard, Bool.false_eq_true,
        if_false, Prod.mk.injEq, Except.ok.injEq]
      exact ⟨hr, by rw [hdt]⟩

theorem claim8_witness :
    ((⟨some Typecode.d, none, none, 0⟩ : CovarianceMatrix 2).cov_mtx = none ∧
     (⟨some Typecode.d, none, none, 0⟩ : CovarianceMatrix 2).avg = none ∧
     (⟨some Typecode.d, none, none, 0⟩ : CovarianceMatrix 2).tlen = 0 ∧
     (runPlain (⟨some Typecode.d, none, none, 0⟩ : CovarianceMatrix 2) [b123]).fix =
       (Except.ok ⟨![![4, 4], ![4, 4]], ![3, 4], 3⟩,
        ⟨some Typecode.d, none, none, 0⟩)) ∧
    ((⟨0, some Typecode.d, none, none, none, 0⟩ : DelayCovarianceMatrix 2).cov_mtx = none ∧
     (⟨0, some Typecode.d, none, none, none, 0⟩ : DelayCovarianceMatrix 2).avg = none ∧
     (⟨0, some Typecode.d, none, none, none, 0⟩ : DelayCovarianceMatrix 2).avg_dt = none ∧
     (⟨0, some Typecode.d, none, none, none, 0⟩ : DelayCovarianceMatrix 2).tlen = 0 ∧
     (runDelay (⟨0, some Typecode.d, none, none, none, 0⟩ : DelayCovarianceMatrix 2) [b123]).fix none =
       (Except.ok ⟨![![4, 4], ![4, 4]], ![3, 4], ![3, 4], 3⟩,
        ⟨0, some Typecode.d, none, none, none, 0⟩)) :=
  ⟨(claim8_reset_idempotence none 0 [b123]
      ⟨![![4, 4], ![4, 4]], ![3, 4], 3⟩ ⟨some Typecode.d, none, none, 0⟩
      ⟨![![4, 4], ![4, 4]], ![3, 4], ![3, 4], 3⟩
      ⟨0, some Typecode.d, none, none, none, 0⟩).1
      (by
        have h1 : runPlain (CovarianceMatrix.new none) [b123] =
            (CovarianceMatrix.new none : CovarianceMatrix 2).update b123 := rfl
        rw [h1, eval_plain_b123]),
   (claim8_reset_idempotence none 0 [b123]
      ⟨![![4, 4], ![4, 4]], ![3, 4], 3⟩ ⟨some Typecode.d, none, none, 0⟩
      ⟨![![4, 4], ![4, 4]], ![3, 4], ![3, 4], 3⟩
      ⟨0, some Typecode.d, none, none, none, 0⟩).2
      (by
        have h2 : runDelay (DelayCovarianceMatrix.new 0 none) [b123] =
            ((DelayCovarianceMatrix.new 0 none : DelayCovarianceMatrix 2).update b123).2 := rfl
        rw [h2, eval_delay0_b123])⟩
